import Mathlib

/-!
Shallow embedding of the stateful core of the `guardian` video-surveillance
pipeline: the centroid tracker (`src/tracker.py`), the ROI dwell detector
(`src/linger_detector.py`) and the alert cooldown layer
(`src/alert_manager.py`).

Modelling conventions:
* Python floats (timestamps, confidences, distances) are modelled as `ℚ`.
* `math.hypot` values are only ever compared with each other and with
  `dist_threshold`; since `Real.sqrt` is strictly monotone on nonnegative
  reals, every comparison `hypot dx dy < t` is equivalent to
  `dx^2 + dy^2 < t^2`.  The embedding therefore carries squared distances
  (`dist2`) and the squared threshold (`distThresholdSq`), which keeps all
  definitions executable and exact.
* The tracker's `self.tracks` dict is modelled as an insertion-ordered
  association list, because the Python code iterates over it
  (`for tid, tr in self.tracks.items()`) and the iteration order is
  observable (it decides which track wins a distance tie).  `setId` has
  Python-dict assignment semantics: an existing key keeps its position, a
  new key is appended.
* The linger detector's `self.objects_in_roi` dict is never iterated, only
  looked up, written and deleted by key, so it is modelled as a function
  `Nat → Option RoiRecord` (pointwise update), which is exactly its
  observable behaviour.
* Python integer `//` is floor division, modelled by `Int.fdiv`.
* The `now or time.monotonic()` / `timestamp or time.monotonic()`
  defaulting treats both `None` and the falsy float `0.0` as absent; it is
  modelled by `resolveNow` over an `Option ℚ` argument together with the
  value the monotonic clock would return.
* `Tracker.update` reads `time.monotonic()` internally to stamp
  `last_seen`; that clock reading is passed to the embedded function as the
  explicit argument `clock`.
-/

namespace Guardian

/-- Axis-aligned box `(x1, y1, x2, y2)`, as the Python tuples. -/
structure Box where
  x1 : Int
  y1 : Int
  x2 : Int
  y2 : Int
deriving DecidableEq

/-- Centroid x coordinate: `(x1 + x2) // 2` (Python floor division). -/
def Box.cx (b : Box) : Int := (b.x1 + b.x2).fdiv 2

/-- Centroid y coordinate: `(y1 + y2) // 2` (Python floor division). -/
def Box.cy (b : Box) : Int := (b.y1 + b.y2).fdiv 2

/-- `tracker.TrackedObject` dataclass. -/
structure TrackedObject where
  id : Nat
  box : Box
  label : String
  confidence : ℚ
  last_seen : ℚ
deriving DecidableEq

/-- `linger_detector.LingerEvent` dataclass. -/
structure LingerEvent where
  id : Nat
  duration : ℚ
  box : Box
  label : String
deriving DecidableEq

/-- One entry of `LingerDetector.objects_in_roi`:
`{"enter_time": now, "alert_emitted": False}`. -/
structure RoiRecord where
  enter_time : ℚ
  alert_emitted : Bool
deriving DecidableEq

/-- The `objects_in_roi` dict, keyed by track id. -/
abbrev RoiMap := Nat → Option RoiRecord

/-- The ROI membership test of `LingerDetector.update`:
`x1 <= cx <= x2 and y1 <= cy <= y2`, inclusive on all edges. -/
def insideRoi (roi : Box) (b : Box) : Bool :=
  decide (roi.x1 ≤ b.cx ∧ b.cx ≤ roi.x2 ∧ roi.y1 ≤ b.cy ∧ b.cy ≤ roi.y2)

/-- The body of the `for obj in tracked` loop of `LingerDetector.update`,
acting on the whole map: enter / emit-once / exit bookkeeping for one
tracked object. -/
def lingerStep (roi : Box) (lingerTime : ℚ) (now : ℚ) (m : RoiMap)
    (obj : TrackedObject) : RoiMap × List LingerEvent :=
  if insideRoi roi obj.box then
    match m obj.id with
    | none => (fun i => if i = obj.id then some ⟨now, false⟩ else m i, [])
    | some r =>
        if now - r.enter_time > lingerTime ∧ r.alert_emitted = false then
          (fun i => if i = obj.id then some ⟨r.enter_time, true⟩ else m i,
           [⟨obj.id, now - r.enter_time, obj.box, obj.label⟩])
        else (m, [])
  else
    match m obj.id with
    | some _ => (fun i => if i = obj.id then none else m i, [])
    | none => (m, [])

/-- The full loop of `LingerDetector.update`, processing the tracked
objects in order and concatenating the emitted events. -/
def lingerUpdateGo (roi : Box) (lingerTime : ℚ) (now : ℚ) (m : RoiMap) :
    List TrackedObject → RoiMap × List LingerEvent
  | [] => (m, [])
  | obj :: rest =>
      let p := lingerStep roi lingerTime now m obj
      let q := lingerUpdateGo roi lingerTime now p.1 rest
      (q.1, p.2 ++ q.2)

/-- `linger_detector.LingerDetector` instance state. -/
structure LingerDetector where
  roi : Box
  linger_time : ℚ
  objects_in_roi : RoiMap

/-- `LingerDetector.update(tracked, now)` with `now` already resolved to an
actual timestamp; returns the new state and the emitted events. -/
def LingerDetector.update (st : LingerDetector) (tracked : List TrackedObject)
    (now : ℚ) : LingerDetector × List LingerEvent :=
  let p := lingerUpdateGo st.roi st.linger_time now st.objects_in_roi tracked
  ({ st with objects_in_roi := p.1 }, p.2)

/-- The `x or time.monotonic()` defaulting applied to the `now`/`timestamp`
parameters: `None` and the falsy float `0.0` are both replaced by the
monotonic-clock reading. -/
def resolveNow (passed : Option ℚ) (clock : ℚ) : ℚ :=
  match passed with
  | none => clock
  | some t => if t = 0 then clock else t

/-- `LingerDetector.update` as called from outside, with the optional `now`
argument and the value `clock` that `time.monotonic()` would return. -/
def LingerDetector.updateCall (st : LingerDetector)
    (tracked : List TrackedObject) (passed : Option ℚ) (clock : ℚ) :
    LingerDetector × List LingerEvent :=
  st.update tracked (resolveNow passed clock)

/-- The effect of processing one tracked object on the map entry of its own
id (`lingerStep` changes no other entry): the per-id state machine. -/
def stepEntry (roi : Box) (lingerTime : ℚ) (now : ℚ) (e : Option RoiRecord)
    (obj : TrackedObject) : Option RoiRecord × List LingerEvent :=
  if insideRoi roi obj.box then
    match e with
    | none => (some ⟨now, false⟩, [])
    | some r =>
        if now - r.enter_time > lingerTime ∧ r.alert_emitted = false then
          (some ⟨r.enter_time, true⟩,
           [⟨obj.id, now - r.enter_time, obj.box, obj.label⟩])
        else (some r, [])
  else (none, [])

/-- `stepEntry` iterated over a list of observations of one id. -/
def entryRun (roi : Box) (lingerTime : ℚ) (now : ℚ) (e : Option RoiRecord) :
    List TrackedObject → Option RoiRecord × List LingerEvent
  | [] => (e, [])
  | obj :: rest =>
      let p := stepEntry roi lingerTime now e obj
      let q := entryRun roi lingerTime now p.1 rest
      (q.1, p.2 ++ q.2)

/-- One call to `LingerDetector.update`: the tracked list and the timestamp
passed with it. -/
structure LingerTick where
  tracked : List TrackedObject
  now : ℚ

/-- A sequence of `LingerDetector.update` calls, accumulating all emitted
events. -/
def LingerDetector.run (st : LingerDetector) :
    List LingerTick → LingerDetector × List LingerEvent
  | [] => (st, [])
  | t :: rest =>
      let p := st.update t.tracked t.now
      let q := p.1.run rest
      (q.1, p.2 ++ q.2)

/-- The `alert_emitted` flag of an optional residency record (`false` when
no record exists). -/
def flagOf : Option RoiRecord → Bool
  | none => false
  | some r => r.alert_emitted

/-- Number of emitted events carrying a given track id. -/
def countId (evs : List LingerEvent) (id : Nat) : Nat :=
  (evs.filter (fun ev => ev.id == id)).length

/-- `true` iff iterating `stepEntry` over the given observations never
deletes an existing record (the residency episode stays alive). -/
def entryIntact (roi : Box) (lingerTime : ℚ) (now : ℚ)
    (e : Option RoiRecord) : List TrackedObject → Bool
  | [] => true
  | obj :: rest =>
      let p := stepEntry roi lingerTime now e obj
      (e.isNone || p.1.isSome) && entryIntact roi lingerTime now p.1 rest

/-- `true` iff along the whole run the residency record of `id` is never
deleted once it exists (no exit, within a call or across calls). -/
def survivesId (roi : Box) (lingerTime : ℚ) (id : Nat) (m : RoiMap) :
    List LingerTick → Bool
  | [] => true
  | t :: rest =>
      entryIntact roi lingerTime t.now (m id)
        (t.tracked.filter (fun o => o.id == id)) &&
      survivesId roi lingerTime id
        (lingerUpdateGo roi lingerTime t.now m t.tracked).1 rest

/-- One entry of `Tracker.tracks`. -/
structure Track where
  centroid : Int × Int
  box : Box
  label : String
  confidence : ℚ
  missing : Nat
deriving DecidableEq

/-- Lookup in a Python dict modelled as an insertion-ordered association
list with unique keys. -/
def lookupId {α : Type} : List (Nat × α) → Nat → Option α
  | [], _ => none
  | (k, v) :: rest, i => if k = i then some v else lookupId rest i

/-- Python-dict assignment `d[i] = v`: an existing key keeps its position,
a new key is appended at the end. -/
def setId {α : Type} : List (Nat × α) → Nat → α → List (Nat × α)
  | [], i, v => [(i, v)]
  | (k, w) :: rest, i, v =>
      if k = i then (i, v) :: rest else (k, w) :: setId rest i v

/-- Keys of a dict, in iteration order. -/
def keysOf {α : Type} (m : List (Nat × α)) : List Nat := m.map Prod.fst

/-- `tracker.Tracker` instance state.  `distThresholdSq` is the square of
the Python `dist_threshold` (see the header comment on `math.hypot`). -/
structure Tracker where
  max_missing_frames : Nat
  distThresholdSq : ℚ
  next_id : Nat
  tracks : List (Nat × Track)
deriving DecidableEq

/-- Squared Euclidean distance between two integer centroids, the square
of the `math.hypot(cx - tx, cy - ty)` value the Python code compares. -/
def dist2 (a b : Int × Int) : ℚ :=
  (((a.1 - b.1) * (a.1 - b.1) + (a.2 - b.2) * (a.2 - b.2) : Int) : ℚ)

/-- The `for tid, tr in self.tracks.items()` best-match scan: the strict
comparison `d < best_dist` means the first entry attaining the minimum
wins; the accumulator starts at `(None, dist_threshold)`. -/
def bestMatchGo (c : Int × Int) (best : Option Nat × ℚ) :
    List (Nat × Track) → Option Nat × ℚ
  | [] => best
  | (tid, tr) :: rest =>
      bestMatchGo c
        (if dist2 c tr.centroid < best.2 then (some tid, dist2 c tr.centroid)
         else best) rest

/-- Best existing track for a detection centroid: `None` unless some track
is strictly closer than `dist_threshold`. -/
def bestMatch (c : Int × Int) (thr2 : ℚ) (tracks : List (Nat × Track)) :
    Option Nat × ℚ :=
  bestMatchGo c (none, thr2) tracks

/-- The track record written for a claimed or fresh id:
`{'centroid': c, 'box': det.box, 'label': det.label,
'confidence': det.confidence, 'missing': 0}`. -/
def newTrack (c : Int × Int) (det : TrackedObject) : Track :=
  ⟨c, det.box, det.label, det.confidence, 0⟩

/-- Accumulator of the detection-association loop of `Tracker.update`:
the `updated` dict, the `used_ids` set and the `next_id` counter. -/
structure AssocAcc where
  updated : List (Nat × Track)
  used : List Nat
  nid : Nat

/-- The `for det in detections` loop of `Tracker.update`: each detection is
matched against the (unchanged) previous `tracks` dict, claims the best id
or allocates a fresh one, and writes its record into `updated`. -/
def assocGo (thr2 : ℚ) (tracks : List (Nat × Track)) (acc : AssocAcc) :
    List TrackedObject → AssocAcc
  | [] => acc
  | det :: rest =>
      let c := (det.box.cx, det.box.cy)
      match (bestMatch c thr2 tracks).1 with
      | none =>
          assocGo thr2 tracks
            ⟨setId acc.updated acc.nid (newTrack c det),
             acc.nid :: acc.used, acc.nid + 1⟩ rest
      | some tid =>
          assocGo thr2 tracks
            ⟨setId acc.updated tid (newTrack c det),
             tid :: acc.used, acc.nid⟩ rest

/-- The second loop of `Tracker.update`: every previous track not claimed
this tick has its missing counter incremented and is kept (with its last
known record) iff the counter stays within `max_missing_frames`. -/
def missingGo (maxMissing : Nat) (used : List Nat)
    (upd : List (Nat × Track)) : List (Nat × Track) → List (Nat × Track)
  | [] => upd
  | (tid, tr) :: rest =>
      if tid ∈ used then missingGo maxMissing used upd rest
      else if tr.missing + 1 ≤ maxMissing then
        missingGo maxMissing used
          (setId upd tid { tr with missing := tr.missing + 1 }) rest
      else missingGo maxMissing used upd rest

/-- `Tracker.update(detections)`.  `clock` is the value the internal
`time.monotonic()` call returns; it is stamped as `last_seen` on every
output object and affects nothing else. -/
def Tracker.update (st : Tracker) (detections : List TrackedObject)
    (clock : ℚ) : Tracker × List TrackedObject :=
  let acc := assocGo st.distThresholdSq st.tracks ⟨[], [], st.next_id⟩
    detections
  let tracks2 := missingGo st.max_missing_frames acc.used acc.updated
    st.tracks
  ({ st with next_id := acc.nid, tracks := tracks2 },
   tracks2.map (fun p => ⟨p.1, p.2.box, p.2.label, p.2.confidence, clock⟩))

/-- `Tracker.update` iterated with an empty detection list (the state does
not depend on the clock reading, which is fixed to `0` here). -/
def iterEmptyT (st : Tracker) : Nat → Tracker
  | 0 => st
  | k + 1 => iterEmptyT (st.update [] 0).1 k

/-- Well-formedness of the tracker dict: unique keys, and every assigned
id below the `next_id` counter. -/
def Tracker.WF (st : Tracker) : Prop :=
  (keysOf st.tracks).Nodup ∧ ∀ k ∈ keysOf st.tracks, k < st.next_id

/-- Erase the clock-dependent field of an output object. -/
def stripLastSeen (o : TrackedObject) : TrackedObject :=
  { o with last_seen := 0 }

/-- `alert_manager.Alert` dataclass; `objects` holds either general
detections or a single linger event. -/
structure Alert (α : Type) where
  type : String
  objects : List (α ⊕ LingerEvent)
deriving DecidableEq

/-- `alert_manager.AlertManager` instance state. -/
structure AlertManager where
  general_cooldown : ℚ
  last_general : ℚ
deriving DecidableEq

/-- `AlertManager.evaluate(general, linger, timestamp)` with `timestamp`
already resolved: one linger alert per event, then a general alert iff the
candidate list is non-empty and the cooldown has elapsed, which also
refreshes `last_general`. -/
def AlertManager.evaluate {α : Type} (st : AlertManager) (general : List α)
    (linger : List LingerEvent) (timestamp : ℚ) :
    AlertManager × List (Alert α) :=
  let alerts := linger.map (fun ev => Alert.mk "linger" [Sum.inr ev])
  if general.isEmpty = false ∧
      timestamp - st.last_general ≥ st.general_cooldown then
    ({ st with last_general := timestamp },
     alerts ++ [Alert.mk "general" (general.map Sum.inl)])
  else (st, alerts)

/-- `AlertManager.evaluate` as called from outside, with the optional
`timestamp` argument and the monotonic-clock value. -/
def AlertManager.evaluateCall {α : Type} (st : AlertManager)
    (general : List α) (linger : List LingerEvent) (passed : Option ℚ)
    (clock : ℚ) : AlertManager × List (Alert α) :=
  st.evaluate general linger (resolveNow passed clock)

/-- Does the alert list contain a general alert? -/
def hasGeneral {α : Type} (alerts : List (Alert α)) : Bool :=
  alerts.any (fun a => a.type == "general")

/-- Detection used in the concrete tracker scenarios: a degenerate box
whose centroid is `(x, 0)`. -/
def detAt (x : Int) : TrackedObject := ⟨0, ⟨x, 0, x, 0⟩, "person", 1, 0⟩

/-- Tracker state reached from a fresh tracker by two update calls.  After
the second call the dict iteration order is `[1, 0]` — id `1` (centroid
`(20, 0)`) is visited before id `0` (centroid `(0, 0)`) — because the
`updated` dict is rebuilt in detection order each tick. -/
def twoTrackState : Tracker :=
  (((Tracker.mk 5 2500 0 []).update [detAt 0, detAt 20] 0).1.update
    [detAt 20, detAt 0] 0).1

/-! ### Helper lemmas: per-id decomposition of `LingerDetector.update` -/

theorem stepEntry_events_id (roi : Box) (lingerTime now : ℚ)
    (e : Option RoiRecord) (obj : TrackedObject) :
    ∀ ev ∈ (stepEntry roi lingerTime now e obj).2, ev.id = obj.id := by
  by_cases hin : insideRoi roi obj.box
  · cases e with
    | none => simp [stepEntry, hin]
    | some r =>
        by_cases hc : now - r.enter_time > lingerTime ∧ r.alert_emitted = false <;>
          simp [stepEntry, hin, hc]
  · simp [stepEntry, hin]

theorem lingerStep_map (roi : Box) (lingerTime now : ℚ) (m : RoiMap)
    (obj : TrackedObject) (i : Nat) :
    (lingerStep roi lingerTime now m obj).1 i =
      if i = obj.id then (stepEntry roi lingerTime now (m obj.id) obj).1
      else m i := by
  by_cases hin : insideRoi roi obj.box
  · cases hm : m obj.id with
    | none =>
        by_cases hio : i = obj.id <;>
          simp [lingerStep, stepEntry, hin, hm, hio]
    | some r =>
        by_cases hc : now - r.enter_time > lingerTime ∧ r.alert_emitted = false <;>
          by_cases hio : i = obj.id <;>
            simp [lingerStep, stepEntry, hin, hm, hc, hio]
  · cases hm : m obj.id with
    | none =>
        by_cases hio : i = obj.id <;>
          simp [lingerStep, stepEntry, hin, hm, hio]
    | some r =>
        by_cases hio : i = obj.id <;>
          simp [lingerStep, stepEntry, hin, hm, hio]

theorem lingerStep_events (roi : Box) (lingerTime now : ℚ) (m : RoiMap)
    (obj : TrackedObject) :
    (lingerStep roi lingerTime now m obj).2 =
      (stepEntry roi lingerTime now (m obj.id) obj).2 := by
  by_cases hin : insideRoi roi obj.box
  · cases hm : m obj.id with
    | none => simp [lingerStep, stepEntry, hin, hm]
    | some r =>
        by_cases hc : now - r.enter_time > lingerTime ∧ r.alert_emitted = false <;>
          simp [lingerStep, stepEntry, hin, hm, hc]
  · cases hm : m obj.id with
    | none => simp [lingerStep, stepEntry, hin, hm]
    | some r => simp [lingerStep, stepEntry, hin, hm]

/-- Master lemma: a call to the linger loop acts on each id's map entry
through `stepEntry`, driven by the occurrences of that id in `tracked`, and
the events carrying that id are exactly the events of those steps. -/
theorem lingerUpdateGo_entry (roi : Box) (lingerTime now : ℚ)
    (tracked : List TrackedObject) :
    ∀ (m : RoiMap) (id : Nat),
      (lingerUpdateGo roi lingerTime now m tracked).1 id =
        (entryRun roi lingerTime now (m id)
          (tracked.filter (fun o => o.id == id))).1 ∧
      (lingerUpdateGo roi lingerTime now m tracked).2.filter
          (fun ev => ev.id == id) =
        (entryRun roi lingerTime now (m id)
          (tracked.filter (fun o => o.id == id))).2 := by
  induction tracked with
  | nil => intro m id; simp [lingerUpdateGo, entryRun]
  | cons obj rest ih =>
      intro m id
      by_cases hio : obj.id = id
      · subst hio
        have hfe : (lingerStep roi lingerTime now m obj).2.filter
            (fun ev => ev.id == obj.id) =
            (lingerStep roi lingerTime now m obj).2 := by
          refine List.filter_eq_self.mpr ?_
          intro ev hev
          have := stepEntry_events_id roi lingerTime now (m obj.id) obj ev
            (by rw [← lingerStep_events roi lingerTime now m obj] at *; exact hev)
          simp [this]
        have hstep : (lingerStep roi lingerTime now m obj).1 obj.id =
            (stepEntry roi lingerTime now (m obj.id) obj).1 := by
          rw [lingerStep_map]; simp
        constructor
        · show (lingerUpdateGo roi lingerTime now
            (lingerStep roi lingerTime now m obj).1 rest).1 obj.id = _
          rw [(ih (lingerStep roi lingerTime now m obj).1 obj.id).1, hstep]
          simp [entryRun]
        · show ((lingerStep roi lingerTime now m obj).2 ++
            (lingerUpdateGo roi lingerTime now
              (lingerStep roi lingerTime now m obj).1 rest).2).filter
              (fun ev => ev.id == obj.id) = _
          rw [List.filter_append, hfe,
            (ih (lingerStep roi lingerTime now m obj).1 obj.id).2, hstep,
            lingerStep_events]
          simp [entryRun]
      · have hfe : (lingerStep roi lingerTime now m obj).2.filter
            (fun ev => ev.id == id) = [] := by
          rw [List.filter_eq_nil_iff]
          intro ev hev
          have := stepEntry_events_id roi lingerTime now (m obj.id) obj ev
            (by rw [← lingerStep_events roi lingerTime now m obj] at *; exact hev)
          simp [this, hio]
        have hstep : (lingerStep roi lingerTime now m obj).1 id = m id := by
          rw [lingerStep_map]
          have hne : ¬ id = obj.id := fun h => hio h.symm
          simp [hne]
        constructor
        · show (lingerUpdateGo roi lingerTime now
            (lingerStep roi lingerTime now m obj).1 rest).1 id = _
          rw [(ih (lingerStep roi lingerTime now m obj).1 id).1, hstep]
          simp [entryRun, hio]
        · show ((lingerStep roi lingerTime now m obj).2 ++
            (lingerUpdateGo roi lingerTime now
              (lingerStep roi lingerTime now m obj).1 rest).2).filter
              (fun ev => ev.id == id) = _
          rw [List.filter_append, hfe,
            (ih (lingerStep roi lingerTime now m obj).1 id).2, hstep]
          simp [hio]

/-- `lingerUpdateGo_entry` restated for the `LingerDetector.update` method. -/
theorem update_entry (st : LingerDetector) (tracked : List TrackedObject)
    (now : ℚ) (id : Nat) :
    (st.update tracked now).1.objects_in_roi id =
      (entryRun st.roi st.linger_time now (st.objects_in_roi id)
        (tracked.filter (fun o => o.id == id))).1 ∧
    (st.update tracked now).2.filter (fun ev => ev.id == id) =
      (entryRun st.roi st.linger_time now (st.objects_in_roi id)
        (tracked.filter (fun o => o.id == id))).2 :=
  lingerUpdateGo_entry st.roi st.linger_time now tracked st.objects_in_roi id

/-- `update_entry` with the detector state given by its fields. -/
theorem update_entry_mk (roi : Box) (lingerTime : ℚ) (m : RoiMap)
    (tracked : List TrackedObject) (now : ℚ) (id : Nat) :
    ((LingerDetector.mk roi lingerTime m).update
        tracked now).1.objects_in_roi id =
      (entryRun roi lingerTime now (m id)
        (tracked.filter (fun o => o.id == id))).1 ∧
    ((LingerDetector.mk roi lingerTime m).update tracked now).2.filter
        (fun ev => ev.id == id) =
      (entryRun roi lingerTime now (m id)
        (tracked.filter (fun o => o.id == id))).2 :=
  update_entry (LingerDetector.mk roi lingerTime m) tracked now id

/-- A list in which `obj` is the single carrier of its id filters to
exactly `[obj]`. -/
theorem filter_single_occ (l1 l2 : List TrackedObject) (obj : TrackedObject)
    (id : Nat) (hobj : obj.id = id) (h1 : ∀ o ∈ l1, o.id ≠ id)
    (h2 : ∀ o ∈ l2, o.id ≠ id) :
    (l1 ++ obj :: l2).filter (fun o => o.id == id) = [obj] := by
  rw [List.filter_append]
  have e1 : l1.filter (fun o => o.id == id) = [] := by
    rw [List.filter_eq_nil_iff]; intro o ho; simp [h1 o ho]
  have e2 : l2.filter (fun o => o.id == id) = [] := by
    rw [List.filter_eq_nil_iff]; intro o ho; simp [h2 o ho]
  simp [e1, e2, List.filter_cons, hobj]

theorem countId_append (a b : List LingerEvent) (id : Nat) :
    countId (a ++ b) id = countId a id + countId b id := by
  simp [countId, List.filter_append]

theorem entryRun_cons (roi : Box) (lingerTime now : ℚ)
    (e : Option RoiRecord) (obj : TrackedObject)
    (rest : List TrackedObject) :
    entryRun roi lingerTime now e (obj :: rest) =
      ((entryRun roi lingerTime now
          (stepEntry roi lingerTime now e obj).1 rest).1,
       (stepEntry roi lingerTime now e obj).2 ++
         (entryRun roi lingerTime now
           (stepEntry roi lingerTime now e obj).1 rest).2) := rfl

theorem stepEntry_inside_none (roi : Box) (lingerTime now : ℚ)
    (obj : TrackedObject) (hin : insideRoi roi obj.box = true) :
    stepEntry roi lingerTime now none obj = (some ⟨now, false⟩, []) := by
  simp [stepEntry, hin]

theorem stepEntry_inside_emit (roi : Box) (lingerTime now : ℚ)
    (r : RoiRecord) (obj : TrackedObject)
    (hin : insideRoi roi obj.box = true)
    (hd : now - r.enter_time > lingerTime) (hf : r.alert_emitted = false) :
    stepEntry roi lingerTime now (some r) obj =
      (some ⟨r.enter_time, true⟩,
       [⟨obj.id, now - r.enter_time, obj.box, obj.label⟩]) := by
  simp [stepEntry, hin, hd, hf]

theorem stepEntry_inside_skip (roi : Box) (lingerTime now : ℚ)
    (r : RoiRecord) (obj : TrackedObject)
    (hin : insideRoi roi obj.box = true)
    (hc : ¬(now - r.enter_time > lingerTime ∧ r.alert_emitted = false)) :
    stepEntry roi lingerTime now (some r) obj = (some r, []) := by
  have he : stepEntry roi lingerTime now (some r) obj =
      if now - r.enter_time > lingerTime ∧ r.alert_emitted = false then
        (some ⟨r.enter_time, true⟩,
         [⟨obj.id, now - r.enter_time, obj.box, obj.label⟩])
      else (some r, []) := by
    unfold stepEntry
    rw [if_pos hin]
  rw [he, if_neg hc]

theorem stepEntry_outside (roi : Box) (lingerTime now : ℚ)
    (e : Option RoiRecord) (obj : TrackedObject)
    (hout : insideRoi roi obj.box = false) :
    stepEntry roi lingerTime now e obj = (none, []) := by
  simp [stepEntry, hout]

/-- While the episode stays alive, each processed observation changes the
event count and the `alert_emitted` flag in lockstep: the events emitted
for an id are exactly its flag transitions from `false` to `true`. -/
theorem entryRun_count (roi : Box) (lingerTime now : ℚ)
    (occs : List TrackedObject) :
    ∀ e : Option RoiRecord, entryIntact roi lingerTime now e occs = true →
      (entryRun roi lingerTime now e occs).2.length + (flagOf e).toNat =
        (flagOf (entryRun roi lingerTime now e occs).1).toNat := by
  induction occs with
  | nil => intro e h; simp [entryRun]
  | cons obj rest ih =>
      intro e h
      simp only [entryIntact, Bool.and_eq_true] at h
      obtain ⟨h1, h2⟩ := h
      by_cases hin : insideRoi roi obj.box
      · cases e with
        | none =>
            rw [stepEntry_inside_none roi lingerTime now obj hin] at h2
            have := ih (some ⟨now, false⟩) h2
            rw [entryRun_cons,
              stepEntry_inside_none roi lingerTime now obj hin]
            simpa [flagOf] using this
        | some r =>
            by_cases hc : now - r.enter_time > lingerTime ∧
                r.alert_emitted = false
            · rw [stepEntry_inside_emit roi lingerTime now r obj hin
                hc.1 hc.2] at h2
              have := ih (some ⟨r.enter_time, true⟩) h2
              rw [entryRun_cons,
                stepEntry_inside_emit roi lingerTime now r obj hin hc.1 hc.2]
              simp only [List.length_append, List.length_cons,
                List.length_nil] at *
              simp only [flagOf, hc.2, Bool.toNat_false, Bool.toNat_true] at *
              omega
            · rw [stepEntry_inside_skip roi lingerTime now r obj hin hc] at h2
              have := ih (some r) h2
              rw [entryRun_cons,
                stepEntry_inside_skip roi lingerTime now r obj hin hc]
              simpa [flagOf] using this
      · have hout : insideRoi roi obj.box = false := by
          simpa using hin
        cases e with
        | none =>
            rw [stepEntry_outside roi lingerTime now none obj hout] at h2
            have := ih none h2
            rw [entryRun_cons,
              stepEntry_outside roi lingerTime now none obj hout]
            simpa [flagOf] using this
        | some r =>
            rw [stepEntry_outside roi lingerTime now (some r) obj hout] at h1
            simp at h1

/-- If every observation of an id in a call is inside the ROI, an existing
record survives the call. -/
theorem entryRun_inside_isSome (roi : Box) (lingerTime now : ℚ)
    (occs : List TrackedObject) :
    ∀ e : Option RoiRecord, (∀ o ∈ occs, insideRoi roi o.box = true) →
      e.isSome = true → ((entryRun roi lingerTime now e occs).1).isSome = true := by
  induction occs with
  | nil => intro e _ he; simpa [entryRun] using he
  | cons obj rest ih =>
      intro e hall he
      have hin : insideRoi roi obj.box = true := hall obj (by simp)
      have hrest : ∀ o ∈ rest, insideRoi roi o.box = true :=
        fun o ho => hall o (by simp [ho])
      cases e with
      | none =>
          rw [entryRun_cons, stepEntry_inside_none roi lingerTime now obj hin]
          exact ih (some ⟨now, false⟩) hrest rfl
      | some r =>
          by_cases hc : now - r.enter_time > lingerTime ∧
              r.alert_emitted = false
          · rw [entryRun_cons,
              stepEntry_inside_emit roi lingerTime now r obj hin hc.1 hc.2]
            exact ih (some ⟨r.enter_time, true⟩) hrest rfl
          · rw [entryRun_cons,
              stepEntry_inside_skip roi lingerTime now r obj hin hc]
            exact ih (some r) hrest rfl

/-- A record whose alert has already been emitted is left untouched by
any number of inside-the-ROI observations. -/
theorem entryRun_flag_stable (roi : Box) (lingerTime now : ℚ)
    (occs : List TrackedObject) (r : RoiRecord)
    (hall : ∀ o ∈ occs, insideRoi roi o.box = true)
    (hr : r.alert_emitted = true) :
    (entryRun roi lingerTime now (some r) occs).1 = some r := by
  induction occs with
  | nil => simp [entryRun]
  | cons obj rest ih =>
      have hin : insideRoi roi obj.box = true := hall obj (by simp)
      have hc : ¬(now - r.enter_time > lingerTime ∧ r.alert_emitted = false) := by
        simp [hr]
      rw [entryRun_cons, stepEntry_inside_skip roi lingerTime now r obj hin hc]
      exact ih (fun o ho => hall o (by simp [ho]))

/-- A record whose dwell time exceeds the threshold and whose id is
observed inside the ROI ends the call with its flag set. -/
theorem entryRun_qualify (roi : Box) (lingerTime now : ℚ)
    (occs : List TrackedObject) (r : RoiRecord) (hne : occs ≠ [])
    (hall : ∀ o ∈ occs, insideRoi roi o.box = true)
    (hdur : now - r.enter_time > lingerTime) :
    flagOf (entryRun roi lingerTime now (some r) occs).1 = true := by
  cases occs with
  | nil => exact absurd rfl hne
  | cons obj rest =>
      have hin : insideRoi roi obj.box = true := hall obj (by simp)
      have hrest : ∀ o ∈ rest, insideRoi roi o.box = true :=
        fun o ho => hall o (by simp [ho])
      cases hr : r.alert_emitted with
      | true =>
          have hc : ¬(now - r.enter_time > lingerTime ∧
              r.alert_emitted = false) := by simp [hr]
          rw [entryRun_cons,
            stepEntry_inside_skip roi lingerTime now r obj hin hc]
          have := entryRun_flag_stable roi lingerTime now rest r hrest hr
          simp only [this]
          simp [flagOf, hr]
      | false =>
          rw [entryRun_cons,
            stepEntry_inside_emit roi lingerTime now r obj hin hdur hr]
          have := entryRun_flag_stable roi lingerTime now rest
            ⟨r.enter_time, true⟩ hrest rfl
          simp only [this]
          simp [flagOf]

/-- Over a whole run in which the record of `id` is never deleted, the
number of events emitted for `id` equals the flag's net transition. -/
theorem run_count (roi : Box) (lingerTime : ℚ) (ticks : List LingerTick) :
    ∀ (m : RoiMap) (id : Nat), survivesId roi lingerTime id m ticks = true →
      countId ((LingerDetector.mk roi lingerTime m).run ticks).2 id +
          (flagOf (m id)).toNat =
        (flagOf (((LingerDetector.mk roi lingerTime m).run
          ticks).1.objects_in_roi id)).toNat := by
  induction ticks with
  | nil => intro m id _; simp [LingerDetector.run, countId]
  | cons t rest ih =>
      intro m id h
      simp only [survivesId, Bool.and_eq_true] at h
      obtain ⟨h1, h2⟩ := h
      have hup := update_entry (LingerDetector.mk roi lingerTime m)
        t.tracked t.now id
      have hcall := entryRun_count roi lingerTime t.now
        (t.tracked.filter (fun o => o.id == id)) (m id) h1
      have hm2 : ((LingerDetector.mk roi lingerTime m).update
          t.tracked t.now).1.objects_in_roi id =
          (entryRun roi lingerTime t.now (m id)
            (t.tracked.filter (fun o => o.id == id))).1 := hup.1
      have hcount : countId ((LingerDetector.mk roi lingerTime m).update
          t.tracked t.now).2 id =
          (entryRun roi lingerTime t.now (m id)
            (t.tracked.filter (fun o => o.id == id))).2.length := by
        unfold countId
        rw [hup.2]
      have hrun : (LingerDetector.mk roi lingerTime m).run (t :: rest) =
          (let p := (LingerDetector.mk roi lingerTime m).update t.tracked t.now
           let q := p.1.run rest
           (q.1, p.2 ++ q.2)) := rfl
      rw [hrun]
      simp only []
      rw [countId_append]
      have hst : ((LingerDetector.mk roi lingerTime m).update
          t.tracked t.now).1 = LingerDetector.mk roi lingerTime
            (lingerUpdateGo roi lingerTime t.now m t.tracked).1 := rfl
      have hih := ih (lingerUpdateGo roi lingerTime t.now m t.tracked).1 id h2
      rw [hst] at *
      have hm2e : (lingerUpdateGo roi lingerTime t.now m t.tracked).1 id =
          (entryRun roi lingerTime t.now (m id)
            (t.tracked.filter (fun o => o.id == id))).1 := hm2
      rw [hm2e] at hih
      rw [hcount]
      omega

/-! ### Claims C1, C2, C3, C7 -/

/-- C1 counterexample.  The claim says a dwell duration exactly equal to
`linger_time` qualifies (`>=`).  In the code the test is strict
(`linger_duration > self.linger_time`): with `linger_time = 5`, a record
entered at time `0` and its track observed inside the ROI at `now = 5`
(duration exactly `5`), `update` emits no event, refuting the claim. -/
theorem c1_boundary_counterexample :
    ((LingerDetector.mk ⟨0, 0, 100, 100⟩ 5
        (fun i => if i = 1 then some ⟨0, false⟩ else none)).update
      [⟨1, ⟨10, 10, 20, 20⟩, "person", 1, 0⟩] 5).2 = [] := by
  norm_num [LingerDetector.update, lingerUpdateGo, lingerStep, insideRoi,
    Box.cx, Box.cy, Int.fdiv]

/-- C1 amended: the qualification test of `LingerDetector.update` is
strict: for a track with an unemitted residency record entered at `t0`
whose centroid lies inside the ROI, the call at `now` emits the
`LingerEvent` iff `now - t0 > linger_time`; a duration less than or equal
to the threshold (in particular exactly equal) emits nothing. -/
theorem c1_threshold_strict (roi : Box) (lingerTime : ℚ) (m : RoiMap)
    (obj : TrackedObject) (t0 now : ℚ)
    (hm : m obj.id = some ⟨t0, false⟩)
    (hin : insideRoi roi obj.box = true) :
    (now - t0 > lingerTime →
      ((LingerDetector.mk roi lingerTime m).update [obj] now).2 =
        [⟨obj.id, now - t0, obj.box, obj.label⟩]) ∧
    (now - t0 ≤ lingerTime →
      ((LingerDetector.mk roi lingerTime m).update [obj] now).2 = []) := by
  have hbase : ((LingerDetector.mk roi lingerTime m).update [obj] now).2 =
      (stepEntry roi lingerTime now (m obj.id) obj).2 ++ [] := by
    show (lingerStep roi lingerTime now m obj).2 ++ [] = _
    rw [lingerStep_events]
  constructor
  · intro hd
    have hstep := stepEntry_inside_emit roi lingerTime now ⟨t0, false⟩ obj
      hin hd rfl
    rw [hbase, hm, hstep]
    simp
  · intro hle
    have hc : ¬(now - (⟨t0, false⟩ : RoiRecord).enter_time > lingerTime ∧
        (⟨t0, false⟩ : RoiRecord).alert_emitted = false) := by
      intro h
      exact absurd h.1 (not_lt.mpr hle)
    have hstep := stepEntry_inside_skip roi lingerTime now ⟨t0, false⟩ obj
      hin hc
    rw [hbase, hm, hstep]
    rfl

/-- C1 witness: with threshold `5`, entry time `0` and `now = 6`
(duration `6 > 5`) the event is emitted. -/
theorem c1_threshold_strict_witness :
    ((LingerDetector.mk ⟨0, 0, 100, 100⟩ 5
        (fun i => if i = 1 then some ⟨0, false⟩ else none)).update
      [⟨1, ⟨10, 10, 20, 20⟩, "person", 1, 0⟩] 6).2 =
      [⟨1, 6, ⟨10, 10, 20, 20⟩, "person"⟩] := by
  have h := (c1_threshold_strict ⟨0, 0, 100, 100⟩ 5
    (fun i => if i = 1 then some ⟨0, false⟩ else none)
    ⟨1, ⟨10, 10, 20, 20⟩, "person", 1, 0⟩ 0 6 rfl (by decide)).1
    (by norm_num)
  simpa using h

/-- C2: exactly-once emission per residency episode.  First part: over any
run of `update` calls in which the record of `id`, once created, is never
deleted (one episode), the number of `LingerEvent`s emitted for `id`
equals the final value of its `alert_emitted` flag — hence it is at most
one, it is one exactly when some tick qualified, and no second event is
ever emitted while the duration stays above the threshold.  Second part:
a single call in which `id` has a record with dwell duration above the
threshold and is observed inside the ROI ends with the flag set (so a
qualifying episode does emit). -/
theorem c2_emit_once_per_episode :
    (∀ (roi : Box) (lingerTime : ℚ) (m : RoiMap) (ticks : List LingerTick)
        (id : Nat),
        survivesId roi lingerTime id m ticks = true →
        flagOf (m id) = false →
        countId ((LingerDetector.mk roi lingerTime m).run ticks).2 id =
          (flagOf (((LingerDetector.mk roi lingerTime m).run
            ticks).1.objects_in_roi id)).toNat ∧
        countId ((LingerDetector.mk roi lingerTime m).run ticks).2 id ≤ 1) ∧
    (∀ (roi : Box) (lingerTime : ℚ) (m : RoiMap)
        (tracked : List TrackedObject) (now : ℚ) (id : Nat) (r : RoiRecord),
        m id = some r → now - r.enter_time > lingerTime →
        (∃ o ∈ tracked, o.id = id) →
        (∀ o ∈ tracked, o.id = id → insideRoi roi o.box = true) →
        flagOf (((LingerDetector.mk roi lingerTime m).update
          tracked now).1.objects_in_roi id) = true) := by
  constructor
  · intro roi lingerTime m ticks id hs hf
    have h := run_count roi lingerTime ticks m id hs
    rw [hf] at h
    simp only [Bool.toNat_false, Nat.add_zero] at h
    refine ⟨h, ?_⟩
    rw [h]
    cases flagOf (((LingerDetector.mk roi lingerTime m).run
      ticks).1.objects_in_roi id) <;> simp
  · intro roi lingerTime m tracked now id r hm hd hex hall
    have hup := (update_entry_mk roi lingerTime m tracked now id).1
    rw [hup, hm]
    apply entryRun_qualify roi lingerTime now _ r _ _ hd
    · obtain ⟨o, ho, hoid⟩ := hex
      intro hcon
      have hmem : o ∈ tracked.filter (fun o => o.id == id) := by
        simp [List.mem_filter, ho, hoid]
      rw [hcon] at hmem
      simp at hmem
    · intro o ho
      have hmem := List.mem_filter.mp ho
      exact hall o hmem.1 (by simpa using hmem.2)

/-- C2 witness: an episode of two ticks (enter at `0`, observed again at
`6 > 5`) emits exactly one event. -/
theorem c2_emit_once_witness :
    countId ((LingerDetector.mk ⟨0, 0, 100, 100⟩ 5 (fun _ => none)).run
      [⟨[⟨1, ⟨10, 10, 20, 20⟩, "person", 1, 0⟩], 0⟩,
       ⟨[⟨1, ⟨10, 10, 20, 20⟩, "person", 1, 0⟩], 6⟩]).2 1 ≤ 1 :=
  (c2_emit_once_per_episode.1 ⟨0, 0, 100, 100⟩ 5 (fun _ => none)
    [⟨[⟨1, ⟨10, 10, 20, 20⟩, "person", 1, 0⟩], 0⟩,
     ⟨[⟨1, ⟨10, 10, 20, 20⟩, "person", 1, 0⟩], 6⟩] 1
    (by norm_num [survivesId, entryIntact, stepEntry, insideRoi,
      lingerUpdateGo, lingerStep, List.filter, Box.cx, Box.cy, Int.fdiv])
    rfl).2

/-- C3 counterexample.  The claim says a call deletes the residency record
of every id absent from `tracked`.  In the code the loop only visits the
objects of `tracked`, so with a record for id `7` and `tracked = []` the
record survives the call, refuting the claim (and the claimed invariant:
the stale record belongs to no observed track). -/
theorem c3_stale_record_counterexample :
    (((LingerDetector.mk ⟨0, 0, 100, 100⟩ 5
        (fun i => if i = 7 then some ⟨0, false⟩ else none)).update
      [] 1).1.objects_in_roi 7) = some ⟨0, false⟩ := rfl

/-- C3 amended: ids absent from `tracked` are left completely untouched —
their records (stale or not) persist and no event is emitted for them; a
record is only ever deleted by a call in which its track appears with
centroid outside the ROI (second part: a record whose every observation
this call is inside the ROI survives). -/
theorem c3_absent_ids_untouched (roi : Box) (lingerTime : ℚ) (m : RoiMap)
    (tracked : List TrackedObject) (now : ℚ) (id : Nat) :
    ((∀ o ∈ tracked, o.id ≠ id) →
      ((LingerDetector.mk roi lingerTime m).update
          tracked now).1.objects_in_roi id = m id ∧
      countId ((LingerDetector.mk roi lingerTime m).update
          tracked now).2 id = 0) ∧
    ((m id).isSome = true →
      (∀ o ∈ tracked, o.id = id → insideRoi roi o.box = true) →
      (((LingerDetector.mk roi lingerTime m).update
          tracked now).1.objects_in_roi id).isSome = true) := by
  constructor
  · intro h
    have hup := update_entry_mk roi lingerTime m tracked now id
    have hfil : tracked.filter (fun o => o.id == id) = [] := by
      rw [List.filter_eq_nil_iff]
      intro o ho
      simp [h o ho]
    rw [hfil] at hup
    constructor
    · rw [hup.1]
      rfl
    · unfold countId
      rw [hup.2]
      rfl
  · intro hsome hall
    have hup := (update_entry_mk roi lingerTime m tracked now id).1
    rw [hup]
    apply entryRun_inside_isSome
    · intro o ho
      have hmem := List.mem_filter.mp ho
      exact hall o hmem.1 (by simpa using hmem.2)
    · exact hsome

/-- C3 witness: instantiation of the amended claim at the counterexample
state: the record of absent id `7` is untouched. -/
theorem c3_absent_ids_witness :
    ((LingerDetector.mk ⟨0, 0, 100, 100⟩ 5
        (fun i => if i = 7 then some ⟨0, false⟩ else none)).update
      [] 1).1.objects_in_roi 7 =
      (fun i => if i = 7 then some (⟨0, false⟩ : RoiRecord) else none) 7 :=
  ((c3_absent_ids_untouched ⟨0, 0, 100, 100⟩ 5
    (fun i => if i = 7 then some ⟨0, false⟩ else none) [] 1 7).1
    (by simp)).1

/-- C7: a track observed outside the ROI has its record deleted and no
event emitted; a subsequent re-entry creates a fresh record with
`enter_time` equal to the re-entry tick's `now` and the unemitted flag —
exactly the record a first entry creates — and while the dwell duration
measured from the record's entry stays at most `linger_time` the record is
unchanged and no event is emitted.  Stated for a call in which the track
appears exactly once. -/
theorem c7_exit_resets_episode (roi : Box) (lingerTime : ℚ) (m : RoiMap)
    (now : ℚ) (id : Nat) (l1 l2 : List TrackedObject) (obj : TrackedObject)
    (hobj : obj.id = id) (h1 : ∀ o ∈ l1, o.id ≠ id)
    (h2 : ∀ o ∈ l2, o.id ≠ id) :
    (insideRoi roi obj.box = false →
      ((LingerDetector.mk roi lingerTime m).update
          (l1 ++ obj :: l2) now).1.objects_in_roi id = none ∧
      countId ((LingerDetector.mk roi lingerTime m).update
          (l1 ++ obj :: l2) now).2 id = 0) ∧
    (insideRoi roi obj.box = true → m id = none →
      ((LingerDetector.mk roi lingerTime m).update
          (l1 ++ obj :: l2) now).1.objects_in_roi id = some ⟨now, false⟩ ∧
      countId ((LingerDetector.mk roi lingerTime m).update
          (l1 ++ obj :: l2) now).2 id = 0) ∧
    (∀ r : RoiRecord, insideRoi roi obj.box = true → m id = some r →
      now - r.enter_time ≤ lingerTime →
      ((LingerDetector.mk roi lingerTime m).update
          (l1 ++ obj :: l2) now).1.objects_in_roi id = some r ∧
      countId ((LingerDetector.mk roi lingerTime m).update
          (l1 ++ obj :: l2) now).2 id = 0) := by
  have hfil := filter_single_occ l1 l2 obj id hobj h1 h2
  have hup := update_entry_mk roi lingerTime m (l1 ++ obj :: l2) now id
  rw [hfil] at hup
  refine ⟨?_, ?_, ?_⟩
  · intro hout
    have hs := stepEntry_outside roi lingerTime now (m id) obj hout
    constructor
    · rw [hup.1, entryRun_cons, hs]
      rfl
    · unfold countId
      rw [hup.2, entryRun_cons, hs]
      rfl
  · intro hin hnone
    have hs := stepEntry_inside_none roi lingerTime now obj hin
    constructor
    · rw [hup.1, hnone, entryRun_cons, hs]
      rfl
    · unfold countId
      rw [hup.2, hnone, entryRun_cons, hs]
      rfl
  · intro r hin hm hle
    have hc : ¬(now - r.enter_time > lingerTime ∧
        r.alert_emitted = false) := by
      intro h
      exact absurd h.1 (not_lt.mpr hle)
    have hs := stepEntry_inside_skip roi lingerTime now r obj hin hc
    constructor
    · rw [hup.1, hm, entryRun_cons, hs]
      rfl
    · unfold countId
      rw [hup.2, hm, entryRun_cons, hs]
      rfl

/-- C7 witness: a track observed outside the ROI (centroid `(200, 200)`
outside `(0,0)-(100,100)`) has its record deleted and emits nothing. -/
theorem c7_exit_resets_witness :
    ((LingerDetector.mk ⟨0, 0, 100, 100⟩ 5
        (fun i => if i = 1 then some ⟨0, false⟩ else none)).update
      [⟨1, ⟨200, 200, 200, 200⟩, "person", 1, 0⟩] 3).1.objects_in_roi 1 =
      none :=
  (((c7_exit_resets_episode ⟨0, 0, 100, 100⟩ 5
    (fun i => if i = 1 then some ⟨0, false⟩ else none) 3 1 [] []
    ⟨1, ⟨200, 200, 200, 200⟩, "person", 1, 0⟩ rfl (by simp) (by simp)).1)
    (by decide)).1

/-! ### Claims C5 and C10 (alert layer) -/

theorem linger_alerts_no_general (α : Type) (linger : List LingerEvent) :
    hasGeneral (linger.map
      (fun ev => (Alert.mk "linger" [Sum.inr ev] : Alert α))) = false := by
  induction linger with
  | nil => rfl
  | cons e rest ih =>
      simp [hasGeneral] at ih ⊢

/-- `AlertManager.evaluate` in one step: when the general alert fires, when
`last_general` moves, and that the cooldown parameter never changes. -/
theorem evaluate_characterization (α : Type) (st : AlertManager)
    (general : List α) (linger : List LingerEvent) (t : ℚ) :
    (hasGeneral (st.evaluate general linger t).2 = true ↔
      (general.isEmpty = false ∧ t - st.last_general ≥ st.general_cooldown)) ∧
    (st.evaluate general linger t).1.last_general =
      (if general.isEmpty = false ∧ t - st.last_general ≥ st.general_cooldown
       then t else st.last_general) ∧
    (st.evaluate general linger t).1.general_cooldown =
      st.general_cooldown := by
  by_cases hc : general.isEmpty = false ∧
      t - st.last_general ≥ st.general_cooldown
  · have h2 : (st.evaluate general linger t).2 =
        (linger.map (fun ev => (Alert.mk "linger" [Sum.inr ev] : Alert α)))
          ++ [Alert.mk "general" (general.map Sum.inl)] := by
      simp only [AlertManager.evaluate, if_pos hc]
    have hgen : hasGeneral (st.evaluate general linger t).2 = true := by
      rw [h2]
      simp [hasGeneral, List.any_append]
    refine ⟨⟨fun _ => hc, fun _ => hgen⟩, ?_, ?_⟩
    · rw [if_pos hc]
      simp only [AlertManager.evaluate, if_pos hc]
    · simp only [AlertManager.evaluate, if_pos hc]
  · have h2 : (st.evaluate general linger t).2 =
        linger.map (fun ev => (Alert.mk "linger" [Sum.inr ev] : Alert α)) := by
      simp only [AlertManager.evaluate, if_neg hc]
    refine ⟨⟨fun h => ?_, fun h => absurd h hc⟩, ?_, ?_⟩
    · rw [h2, linger_alerts_no_general] at h
      exact absurd h (by simp)
    · rw [if_neg hc]
      simp only [AlertManager.evaluate, if_neg hc]
    · simp only [AlertManager.evaluate, if_neg hc]

/-- C5: a `General` alert appears in the result of
`AlertManager.evaluate(general, linger, t)` iff `general` is non-empty and
`t - last_general >= general_cooldown`; on emission `last_general` becomes
`t`, otherwise it is unchanged.  In particular, starting from a fresh
manager, calls with non-empty candidates at `t0`, `t0 + cooldown - ε` and
`t0 + cooldown` (with `0 < ε`, `cooldown ≤ t0`) emit at the first and
third call only. -/
theorem c5_general_cooldown :
    (∀ (α : Type) (st : AlertManager) (general : List α)
        (linger : List LingerEvent) (t : ℚ),
        (hasGeneral (st.evaluate general linger t).2 = true ↔
          (general.isEmpty = false ∧
           t - st.last_general ≥ st.general_cooldown)) ∧
        (hasGeneral (st.evaluate general linger t).2 = true →
          (st.evaluate general linger t).1.last_general = t) ∧
        (hasGeneral (st.evaluate general linger t).2 = false →
          (st.evaluate general linger t).1.last_general =
            st.last_general)) ∧
    (∀ (α : Type) (cd t0 ε : ℚ) (general : List α)
        (l1 l2 l3 : List LingerEvent),
        general.isEmpty = false → 0 < ε → cd ≤ t0 →
        hasGeneral ((AlertManager.mk cd 0).evaluate general l1 t0).2 =
          true ∧
        hasGeneral (((AlertManager.mk cd 0).evaluate general l1
          t0).1.evaluate general l2 (t0 + cd - ε)).2 = false ∧
        hasGeneral ((((AlertManager.mk cd 0).evaluate general l1
          t0).1.evaluate general l2 (t0 + cd - ε)).1.evaluate general l3
          (t0 + cd)).2 = true) := by
  constructor
  · intro α st general linger t
    obtain ⟨hiff, hlast, _⟩ := evaluate_characterization α st general linger t
    refine ⟨hiff, fun h => ?_, fun h => ?_⟩
    · rw [hlast, if_pos (hiff.mp h)]
    · have hnc : ¬(general.isEmpty = false ∧
          t - st.last_general ≥ st.general_cooldown) := fun hcond =>
        by rw [hiff.mpr hcond] at h; exact absurd h (by simp)
      rw [hlast, if_neg hnc]
  · intro α cd t0 ε general l1 l2 l3 hg hε hct
    have hcond1 : general.isEmpty = false ∧
        t0 - (AlertManager.mk cd 0).last_general ≥
          (AlertManager.mk cd 0).general_cooldown := by
      refine ⟨hg, ?_⟩
      show t0 - 0 ≥ cd
      linarith
    have h1 : ((AlertManager.mk cd 0).evaluate general l1 t0).1 =
        AlertManager.mk cd t0 := by
      simp only [AlertManager.evaluate, if_pos hcond1]
    have hcond2 : ¬(general.isEmpty = false ∧
        (t0 + cd - ε) - (AlertManager.mk cd t0).last_general ≥
          (AlertManager.mk cd t0).general_cooldown) := by
      rintro ⟨-, hge⟩
      have : t0 + cd - ε - t0 ≥ cd := hge
      linarith
    have h2 : ((AlertManager.mk cd t0).evaluate general l2
        (t0 + cd - ε)).1 = AlertManager.mk cd t0 := by
      simp only [AlertManager.evaluate, if_neg hcond2]
    have hcond3 : general.isEmpty = false ∧
        (t0 + cd) - (AlertManager.mk cd t0).last_general ≥
          (AlertManager.mk cd t0).general_cooldown := by
      refine ⟨hg, ?_⟩
      show t0 + cd - t0 ≥ cd
      linarith
    refine ⟨?_, ?_, ?_⟩
    · exact (evaluate_characterization α (AlertManager.mk cd 0) general
        l1 t0).1.mpr hcond1
    · rw [h1]
      have hne : ¬ hasGeneral ((AlertManager.mk cd t0).evaluate general l2
          (t0 + cd - ε)).2 = true := fun h =>
        absurd ((evaluate_characterization α (AlertManager.mk cd t0) general
          l2 (t0 + cd - ε)).1.mp h) hcond2
      exact eq_false_of_ne_true hne
    · rw [h1, h2]
      exact (evaluate_characterization α (AlertManager.mk cd t0) general
        l3 (t0 + cd)).1.mpr hcond3

/-- C5 witness: cooldown `10`, calls at `12`, `17` (`ε = 5`) and `22` with
one candidate. -/
theorem c5_general_cooldown_witness :
    hasGeneral ((AlertManager.mk 10 0).evaluate [42] [] 12).2 = true ∧
    hasGeneral (((AlertManager.mk 10 0).evaluate [(42 : ℕ)] []
      12).1.evaluate [42] [] 17).2 = false ∧
    hasGeneral ((((AlertManager.mk 10 0).evaluate [(42 : ℕ)] []
      12).1.evaluate [42] [] 17).1.evaluate [42] [] 22).2 = true := by
  have h := c5_general_cooldown.2 ℕ 10 12 5 [42] [] [] []
    (by norm_num) (by norm_num) (by norm_num)
  have e2 : (12 : ℚ) + 10 - 5 = 17 := by norm_num
  have e3 : (12 : ℚ) + 10 = 22 := by norm_num
  rw [e2, e3] at h
  exact h

/-- C10: the `now or time.monotonic()` / `timestamp or time.monotonic()`
defaulting in `LingerDetector.update` and `AlertManager.evaluate` treats an
explicit timestamp `0.0` exactly like an absent one: both are replaced by
the internal monotonic-clock reading, while any non-zero timestamp is
honoured. -/
theorem c10_zero_timestamp_defaulting :
    (∀ (st : LingerDetector) (tracked : List TrackedObject) (clock : ℚ),
        st.updateCall tracked (some 0) clock = st.update tracked clock ∧
        st.updateCall tracked none clock = st.update tracked clock) ∧
    (∀ (st : LingerDetector) (tracked : List TrackedObject) (t clock : ℚ),
        t ≠ 0 → st.updateCall tracked (some t) clock =
          st.update tracked t) ∧
    (∀ (α : Type) (st : AlertManager) (general : List α)
        (linger : List LingerEvent) (clock : ℚ),
        st.evaluateCall general linger (some 0) clock =
          st.evaluate general linger clock ∧
        st.evaluateCall general linger none clock =
          st.evaluate general linger clock) ∧
    (∀ (α : Type) (st : AlertManager) (general : List α)
        (linger : List LingerEvent) (t clock : ℚ), t ≠ 0 →
        st.evaluateCall general linger (some t) clock =
          st.evaluate general linger t) := by
  refine ⟨fun st tracked clock => ⟨?_, rfl⟩,
    fun st tracked t clock ht => ?_,
    fun α st general linger clock => ⟨?_, rfl⟩,
    fun α st general linger t clock ht => ?_⟩
  · show st.update tracked (resolveNow (some 0) clock) = _
    simp [resolveNow]
  · show st.update tracked (resolveNow (some t) clock) = _
    simp [resolveNow, ht]
  · show st.evaluate general linger (resolveNow (some 0) clock) = _
    simp [resolveNow]
  · show st.evaluate general linger (resolveNow (some t) clock) = _
    simp [resolveNow, ht]

/-- C10 witness: a non-zero timestamp `3` is honoured with clock `99`. -/
theorem c10_zero_timestamp_witness :
    (LingerDetector.mk ⟨0, 0, 100, 100⟩ 5 (fun _ => none)).updateCall []
      (some 3) 99 =
    (LingerDetector.mk ⟨0, 0, 100, 100⟩ 5 (fun _ => none)).update [] 3 :=
  c10_zero_timestamp_defaulting.2.1
    (LingerDetector.mk ⟨0, 0, 100, 100⟩ 5 (fun _ => none)) [] 3 99
    (by norm_num)

/-! ### Helper lemmas: tracker dict and best-match scan -/

theorem lookupId_setId {α : Type} (m : List (Nat × α)) (key : Nat) (v : α) :
    ∀ i, lookupId (setId m key v) i =
      if i = key then some v else lookupId m i := by
  induction m with
  | nil =>
      intro i
      by_cases h : i = key
      · simp [setId, lookupId, h]
      · have h2 : ¬ key = i := fun he => h he.symm
        simp [setId, lookupId, h, h2]
  | cons q rest ih =>
      intro i
      obtain ⟨k0, w⟩ := q
      by_cases hk : k0 = key
      · subst hk
        by_cases hi : i = k0
        · simp [setId, lookupId, hi]
        · have h2 : ¬ k0 = i := fun he => hi he.symm
          simp [setId, lookupId, hi, h2]
      · by_cases hi : i = k0
        · subst hi
          simp [setId, lookupId, hk]
        · have h2 : ¬ k0 = i := fun he => hi he.symm
          simp [setId, lookupId, hk, h2, ih i]

theorem mem_keysOf_setId {α : Type} (m : List (Nat × α)) (key : Nat)
    (v : α) : ∀ a, a ∈ keysOf (setId m key v) ↔ a ∈ keysOf m ∨ a = key := by
  induction m with
  | nil => intro a; simp [setId, keysOf]
  | cons q rest ih =>
      intro a
      obtain ⟨k0, w⟩ := q
      by_cases hk : k0 = key
      · subst hk
        rw [setId, if_pos rfl]
        simp only [keysOf, List.map_cons, List.mem_cons]
        tauto
      · simp only [setId, if_neg hk, keysOf, List.map_cons, List.mem_cons]
        have hih := ih a
        simp only [keysOf] at hih
        rw [hih]
        tauto

theorem nodup_keysOf_setId {α : Type} (m : List (Nat × α)) (key : Nat)
    (v : α) (h : (keysOf m).Nodup) : (keysOf (setId m key v)).Nodup := by
  induction m with
  | nil => simp [setId, keysOf]
  | cons q rest ih =>
      obtain ⟨k0, w⟩ := q
      simp only [keysOf, List.map_cons, List.nodup_cons] at h
      by_cases hk : k0 = key
      · subst hk
        rw [setId, if_pos rfl]
        simp only [keysOf, List.map_cons, List.nodup_cons]
        exact h
      · rw [setId, if_neg hk]
        simp only [keysOf, List.map_cons, List.nodup_cons]
        refine ⟨?_, ih h.2⟩
        intro hmem
        rcases (mem_keysOf_setId rest key v k0).mp hmem with hin | heq
        · exact absurd hin h.1
        · exact absurd heq hk

theorem missingGo_lookupId_used (maxMissing : Nat) (used : List Nat)
    (l : List (Nat × Track)) :
    ∀ (upd : List (Nat × Track)) (t : Nat), t ∈ used →
      lookupId (missingGo maxMissing used upd l) t = lookupId upd t := by
  induction l with
  | nil => intro upd t _; rfl
  | cons q rest ih =>
      intro upd t ht
      obtain ⟨tid, tr⟩ := q
      by_cases hu : tid ∈ used
      · rw [missingGo, if_pos hu]
        exact ih upd t ht
      · rw [missingGo, if_neg hu]
        by_cases hm : tr.missing + 1 ≤ maxMissing
        · rw [if_pos hm, ih _ t ht, lookupId_setId]
          have hne : ¬ t = tid := fun he => hu (he ▸ ht)
          rw [if_neg hne]
        · rw [if_neg hm]
          exact ih upd t ht

theorem bestMatchGo_no_improve (c : Int × Int) (l : List (Nat × Track)) :
    ∀ acc : Option Nat × ℚ,
      (∀ p ∈ l, ¬ dist2 c p.2.centroid < acc.2) →
      bestMatchGo c acc l = acc := by
  induction l with
  | nil => intro acc _; rfl
  | cons q rest ih =>
      intro acc h
      obtain ⟨tid, tr⟩ := q
      have hq : ¬ dist2 c tr.centroid < acc.2 := h (tid, tr) (by simp)
      rw [bestMatchGo, if_neg hq]
      exact ih acc (fun p hp => h p (by simp [hp]))

/-- The `d < best_dist` scan keeps the FIRST entry attaining the minimum
distance: if every entry before `(t, tr)` is strictly farther and every
entry after is at least as far, `t` wins (whatever the ids are). -/
theorem bestMatchGo_first_min (c : Int × Int) (l1 : List (Nat × Track)) :
    ∀ (acc : Option Nat × ℚ) (t : Nat) (tr : Track)
      (l2 : List (Nat × Track)),
      dist2 c tr.centroid < acc.2 →
      (∀ p ∈ l1, dist2 c tr.centroid < dist2 c p.2.centroid) →
      (∀ p ∈ l2, dist2 c tr.centroid ≤ dist2 c p.2.centroid) →
      bestMatchGo c acc (l1 ++ (t, tr) :: l2) =
        (some t, dist2 c tr.centroid) := by
  induction l1 with
  | nil =>
      intro acc t tr l2 hlt _ h2
      rw [List.nil_append, bestMatchGo, if_pos hlt]
      exact bestMatchGo_no_improve c l2 (some t, dist2 c tr.centroid)
        (fun p hp => not_lt.mpr (h2 p hp))
  | cons q rest ih =>
      intro acc t tr l2 hlt h1 h2
      obtain ⟨tid0, tr0⟩ := q
      have hgt : dist2 c tr.centroid < dist2 c tr0.centroid :=
        h1 (tid0, tr0) (by simp)
      rw [List.cons_append, bestMatchGo]
      by_cases hq : dist2 c tr0.centroid < acc.2
      · rw [if_pos hq]
        exact ih (some tid0, dist2 c tr0.centroid) t tr l2 hgt
          (fun p hp => h1 p (by simp [hp])) h2
      · rw [if_neg hq]
        exact ih acc t tr l2 hlt (fun p hp => h1 p (by simp [hp])) h2

theorem bestMatchGo_some_mem (c : Int × Int) (l : List (Nat × Track)) :
    ∀ (acc : Option Nat × ℚ) (t : Nat),
      (bestMatchGo c acc l).1 = some t → acc.1 = some t ∨ t ∈ keysOf l := by
  induction l with
  | nil => intro acc t h; exact Or.inl h
  | cons q rest ih =>
      intro acc t h
      obtain ⟨tid, tr⟩ := q
      rw [bestMatchGo] at h
      rcases ih _ t h with hacc | hmem
      · by_cases hq : dist2 c tr.centroid < acc.2
        · rw [if_pos hq] at hacc
          have heq : tid = t := by simpa using hacc
          right
          simp [keysOf, heq]
        · rw [if_neg hq] at hacc
          exact Or.inl hacc
      · right
        simp only [keysOf, List.map_cons, List.mem_cons]
        exact Or.inr hmem

/-! ### Claims C9 and C4 (tracker clock and tie-break) -/

/-- C9 counterexample.  The claim says `Tracker.update` never reads a
clock internally and two calls from identical state with identical
detections produce identical outputs including `last_seen`.  The code
calls `time.monotonic()` inside `update` to stamp `last_seen`; with two
different internal clock readings (`1` and `2`) the outputs differ. -/
theorem c9_clock_counterexample :
    ((Tracker.mk 5 2500 0 []).update [detAt 0] 1).2 ≠
      ((Tracker.mk 5 2500 0 []).update [detAt 0] 2).2 := by
  decide

/-- C9 amended: `Tracker.update` is deterministic given its prior state,
its detections and the internal monotonic-clock reading; everything except
the `last_seen` stamps — the whole post-state and the outputs with
`last_seen` erased — is independent of the clock, and every returned
object's `last_seen` equals the internal clock reading. -/
theorem c9_determinism_mod_clock (st : Tracker) (dets : List TrackedObject)
    (c1 c2 : ℚ) :
    (st.update dets c1).1 = (st.update dets c2).1 ∧
    (st.update dets c1).2.map stripLastSeen =
      (st.update dets c2).2.map stripLastSeen ∧
    (∀ o ∈ (st.update dets c1).2, o.last_seen = c1) := by
  refine ⟨rfl, ?_, ?_⟩
  · simp only [Tracker.update, List.map_map]
    rfl
  · intro o ho
    simp only [Tracker.update, List.mem_map] at ho
    obtain ⟨p, -, rfl⟩ := ho
    rfl

/-- C9 witness. -/
theorem c9_determinism_witness :
    ((Tracker.mk 5 2500 0 []).update [detAt 0] 1).1 =
      ((Tracker.mk 5 2500 0 []).update [detAt 0] 2).1 ∧
    ∀ o ∈ ((Tracker.mk 5 2500 0 []).update [detAt 0] 1).2,
      o.last_seen = 1 :=
  ⟨(c9_determinism_mod_clock (Tracker.mk 5 2500 0 []) [detAt 0] 1 2).1,
   (c9_determinism_mod_clock (Tracker.mk 5 2500 0 []) [detAt 0] 1 2).2.2⟩

/-- C4 counterexample.  From a fresh tracker, two ticks produce the
reachable state `twoTrackState` whose dict iteration order is `[1, 0]`.  A
detection at centroid `(10, 0)` is then exactly equidistant (distance 10,
below the threshold 50) from track 1 at `(20, 0)` and track 0 at `(0, 0)`.
The claim says the tie goes to the lowest id (0); in the code the strict
`d < best_dist` scan keeps the first entry in dict order, so track 1 wins:
track 1 receives the detection's data and track 0 is left unmatched with
its missing counter incremented. -/
theorem c4_tiebreak_counterexample :
    keysOf twoTrackState.tracks = [1, 0] ∧
    (lookupId twoTrackState.tracks 0).map Track.centroid = some (0, 0) ∧
    (lookupId twoTrackState.tracks 1).map Track.centroid = some (20, 0) ∧
    dist2 ((detAt 10).box.cx, (detAt 10).box.cy) (0, 0) =
      dist2 ((detAt 10).box.cx, (detAt 10).box.cy) (20, 0) ∧
    dist2 ((detAt 10).box.cx, (detAt 10).box.cy) (0, 0) <
      twoTrackState.distThresholdSq ∧
    (lookupId ((twoTrackState.update [detAt 10] 0).1.tracks) 1).map
      Track.centroid = some (10, 0) ∧
    (lookupId ((twoTrackState.update [detAt 10] 0).1.tracks) 0).map
      Track.missing = some 1 := by
  decide

/-- C4 amended: the match of a detection is the first track in the tracks
dict's iteration (insertion) order attaining the minimum centroid distance
below the threshold — deterministic, but decided by dict order, not by
lowest id.  When such a first-minimum track exists, `Tracker.update`
gives it the detection's record and allocates no new id. -/
theorem c4_first_in_order_wins (st : Tracker) (det : TrackedObject)
    (clock : ℚ) (l1 l2 : List (Nat × Track)) (t : Nat) (tr : Track)
    (htracks : st.tracks = l1 ++ (t, tr) :: l2)
    (hlt : dist2 (det.box.cx, det.box.cy) tr.centroid < st.distThresholdSq)
    (h1 : ∀ p ∈ l1, dist2 (det.box.cx, det.box.cy) tr.centroid <
      dist2 (det.box.cx, det.box.cy) p.2.centroid)
    (h2 : ∀ p ∈ l2, dist2 (det.box.cx, det.box.cy) tr.centroid ≤
      dist2 (det.box.cx, det.box.cy) p.2.centroid) :
    bestMatch (det.box.cx, det.box.cy) st.distThresholdSq st.tracks =
      (some t, dist2 (det.box.cx, det.box.cy) tr.centroid) ∧
    lookupId ((st.update [det] clock).1.tracks) t =
      some (newTrack (det.box.cx, det.box.cy) det) ∧
    (st.update [det] clock).1.next_id = st.next_id := by
  have hbm : bestMatch (det.box.cx, det.box.cy) st.distThresholdSq
      st.tracks = (some t, dist2 (det.box.cx, det.box.cy) tr.centroid) := by
    rw [htracks]
    exact bestMatchGo_first_min (det.box.cx, det.box.cy) l1
      (none, st.distThresholdSq) t tr l2 hlt h1 h2
  have hb1 : (bestMatch (det.box.cx, det.box.cy) st.distThresholdSq
      st.tracks).1 = some t := by rw [hbm]
  have hacc : assocGo st.distThresholdSq st.tracks ⟨[], [], st.next_id⟩
      [det] = ⟨[(t, newTrack (det.box.cx, det.box.cy) det)], [t],
        st.next_id⟩ := by
    simp only [assocGo, hb1]
    rfl
  refine ⟨hbm, ?_, ?_⟩
  · have htr2 : (st.update [det] clock).1.tracks =
        missingGo st.max_missing_frames [t]
          [(t, newTrack (det.box.cx, det.box.cy) det)] st.tracks := by
      simp only [Tracker.update, hacc]
    rw [htr2, missingGo_lookupId_used st.max_missing_frames [t] st.tracks
      [(t, newTrack (det.box.cx, det.box.cy) det)] t (by simp)]
    simp [lookupId]
  · simp only [Tracker.update, hacc]

/-- C4 amended witness: in `twoTrackState` (dict order `[1, 0]`), a
detection equidistant from both tracks is matched to track 1, the first in
dict order. -/
theorem c4_first_in_order_witness :
    lookupId ((twoTrackState.update [detAt 10] 0).1.tracks) 1 =
      some (newTrack ((detAt 10).box.cx, (detAt 10).box.cy) (detAt 10)) ∧
    (twoTrackState.update [detAt 10] 0).1.next_id = twoTrackState.next_id :=
  ⟨(c4_first_in_order_wins twoTrackState (detAt 10) 0 []
    [(0, ⟨(0, 0), ⟨0, 0, 0, 0⟩, "person", 1, 0⟩)] 1
    ⟨(20, 0), ⟨20, 0, 20, 0⟩, "person", 1, 0⟩ (by decide) (by decide)
    (by decide) (by decide)).2.1,
   (c4_first_in_order_wins twoTrackState (detAt 10) 0 []
    [(0, ⟨(0, 0), ⟨0, 0, 0, 0⟩, "person", 1, 0⟩)] 1
    ⟨(20, 0), ⟨20, 0, 20, 0⟩, "person", 1, 0⟩ (by decide) (by decide)
    (by decide) (by decide)).2.2⟩

/-! ### Claim C6 (missing-frame tolerance) -/

/-- One `Tracker.update` call with no detections on a one-track state:
the missing counter increments, and the track survives with its last known
data iff the counter stays within `max_missing_frames`. -/
theorem update_empty_single (maxMissing : Nat) (thr2 : ℚ) (nid tid : Nat)
    (tr : Track) (clock : ℚ) :
    (Tracker.mk maxMissing thr2 nid [(tid, tr)]).update [] clock =
      (if tr.missing + 1 ≤ maxMissing then
        (Tracker.mk maxMissing thr2 nid
          [(tid, { tr with missing := tr.missing + 1 })],
         [⟨tid, tr.box, tr.label, tr.confidence, clock⟩])
       else (Tracker.mk maxMissing thr2 nid [], [])) := by
  have hnm : ¬ tid ∈ ([] : List Nat) := List.not_mem_nil tid
  by_cases hm : tr.missing + 1 ≤ maxMissing
  · rw [if_pos hm]
    simp only [Tracker.update, assocGo, missingGo, if_neg hnm, if_pos hm]
    rfl
  · rw [if_neg hm]
    simp only [Tracker.update, assocGo, missingGo, if_neg hnm, if_neg hm]
    rfl

/-- After `k ≤ max_missing_frames - tr.missing` empty ticks the single
track is still there, with its missing counter increased by `k` and its
record otherwise untouched. -/
theorem iterEmptyT_single (maxMissing : Nat) (thr2 : ℚ) (nid tid : Nat) :
    ∀ (k : Nat) (tr : Track), tr.missing + k ≤ maxMissing →
      iterEmptyT (Tracker.mk maxMissing thr2 nid [(tid, tr)]) k =
        Tracker.mk maxMissing thr2 nid
          [(tid, { tr with missing := tr.missing + k })] := by
  intro k
  induction k with
  | zero => intro tr _; simp [iterEmptyT]
  | succ n ih =>
      intro tr h
      have hm : tr.missing + 1 ≤ maxMissing := by omega
      rw [iterEmptyT, update_empty_single, if_pos hm]
      have hstep := ih { tr with missing := tr.missing + 1 } (by simp; omega)
      rw [hstep]
      have harith : tr.missing + 1 + n = tr.missing + (n + 1) := by omega
      simp [harith]

theorem iterEmptyT_succ_back :
    ∀ (k : Nat) (st : Tracker),
      iterEmptyT st (k + 1) = ((iterEmptyT st k).update [] 0).1 := by
  intro k
  induction k with
  | zero => intro st; rfl
  | succ n ih =>
      intro st
      rw [iterEmptyT, ih (st.update [] 0).1]
      rfl

/-- After `max_missing_frames + 1` empty ticks a fresh track is dropped. -/
theorem iterEmptyT_single_drop (maxMissing : Nat) (thr2 : ℚ)
    (nid tid : Nat) (tr : Track) (h0 : tr.missing = 0) :
    iterEmptyT (Tracker.mk maxMissing thr2 nid [(tid, tr)])
      (maxMissing + 1) = Tracker.mk maxMissing thr2 nid [] := by
  rw [iterEmptyT_succ_back,
    iterEmptyT_single maxMissing thr2 nid tid maxMissing tr (by omega),
    update_empty_single]
  rw [if_neg (by simp; omega)]

/-- A detection offered to a tracker with no tracks spawns a fresh track
under the `next_id` counter, which is then incremented. -/
theorem update_det_empty (maxMissing : Nat) (thr2 : ℚ) (nid : Nat)
    (det : TrackedObject) (clock : ℚ) :
    ((Tracker.mk maxMissing thr2 nid []).update [det] clock).1 =
      Tracker.mk maxMissing thr2 (nid + 1)
        [(nid, newTrack (det.box.cx, det.box.cy) det)] := rfl

/-- A detection within the (squared) distance threshold of the single
track's centroid reclaims the same id, leaving `next_id` untouched. -/
theorem update_det_single_match (maxMissing : Nat) (thr2 : ℚ)
    (nid tid : Nat) (tr : Track) (det : TrackedObject) (clock : ℚ)
    (hd : dist2 (det.box.cx, det.box.cy) tr.centroid < thr2) :
    ((Tracker.mk maxMissing thr2 nid [(tid, tr)]).update [det] clock).1 =
      Tracker.mk maxMissing thr2 nid
        [(tid, newTrack (det.box.cx, det.box.cy) det)] := by
  have hb1 : (bestMatch (det.box.cx, det.box.cy) thr2 [(tid, tr)]).1 =
      some tid := by
    rw [bestMatch, bestMatchGo, if_pos hd]
    rfl
  have hacc : assocGo thr2 [(tid, tr)] ⟨[], [], nid⟩ [det] =
      ⟨[(tid, newTrack (det.box.cx, det.box.cy) det)], [tid], nid⟩ := by
    simp only [assocGo, hb1]
    rfl
  have hmg : missingGo maxMissing [tid]
      [(tid, newTrack (det.box.cx, det.box.cy) det)] [(tid, tr)] =
      [(tid, newTrack (det.box.cx, det.box.cy) det)] := by
    rw [missingGo, if_pos (by simp)]
    rfl
  simp only [Tracker.update, hacc, hmg]

/-- C6: with a single live track (counter 0), `k ≤ max_missing_frames`
empty ticks keep the track in state and output with its last known box,
label and confidence and the same id; a detection then arriving within the
distance threshold of its last centroid reclaims the same id without
allocating a new one.  After `max_missing_frames + 1` empty ticks the
track is gone, and the same detection receives a fresh id from the
`next_id` counter. -/
theorem c6_missing_tolerance (maxMissing : Nat) (thr2 : ℚ) (nid tid : Nat)
    (tr : Track) (det : TrackedObject) (k : Nat) (clock : ℚ)
    (h0 : tr.missing = 0) (hk : k ≤ maxMissing)
    (hd : dist2 (det.box.cx, det.box.cy) tr.centroid < thr2) :
    iterEmptyT (Tracker.mk maxMissing thr2 nid [(tid, tr)]) k =
      Tracker.mk maxMissing thr2 nid [(tid, { tr with missing := k })] ∧
    (k + 1 ≤ maxMissing →
      ((iterEmptyT (Tracker.mk maxMissing thr2 nid [(tid, tr)]) k).update
        [] clock).2 = [⟨tid, tr.box, tr.label, tr.confidence, clock⟩]) ∧
    ((iterEmptyT (Tracker.mk maxMissing thr2 nid [(tid, tr)]) k).update
      [det] clock).1 = Tracker.mk maxMissing thr2 nid
        [(tid, newTrack (det.box.cx, det.box.cy) det)] ∧
    iterEmptyT (Tracker.mk maxMissing thr2 nid [(tid, tr)])
      (maxMissing + 1) = Tracker.mk maxMissing thr2 nid [] ∧
    ((iterEmptyT (Tracker.mk maxMissing thr2 nid [(tid, tr)])
      (maxMissing + 1)).update [det] clock).1 =
      Tracker.mk maxMissing thr2 (nid + 1)
        [(nid, newTrack (det.box.cx, det.box.cy) det)] := by
  have hiter : iterEmptyT (Tracker.mk maxMissing thr2 nid [(tid, tr)]) k =
      Tracker.mk maxMissing thr2 nid
        [(tid, { tr with missing := k })] := by
    have := iterEmptyT_single maxMissing thr2 nid tid k tr (by omega)
    rw [this, h0]
    simp
  have hdrop := iterEmptyT_single_drop maxMissing thr2 nid tid tr h0
  refine ⟨hiter, ?_, ?_, hdrop, ?_⟩
  · intro hk1
    rw [hiter, update_empty_single]
    rw [if_pos (by simp; omega)]
  · rw [hiter]
    exact update_det_single_match maxMissing thr2 nid tid
      { tr with missing := k } det clock hd
  · rw [hdrop]
    exact update_det_empty maxMissing thr2 nid det clock

/-- C6 witness: `max_missing_frames = 3`, two empty ticks, then a
detection 10 pixels away (squared distance 100 < 2500): same id `7`, no
new id. -/
theorem c6_missing_tolerance_witness :
    ((iterEmptyT (Tracker.mk 3 2500 9 [(7, ⟨(0, 0), ⟨0, 0, 0, 0⟩,
      "person", 1, 0⟩)]) 2).update [detAt 10] 0).1 =
      Tracker.mk 3 2500 9 [(7, newTrack ((detAt 10).box.cx,
        (detAt 10).box.cy) (detAt 10))] :=
  (c6_missing_tolerance 3 2500 9 7 ⟨(0, 0), ⟨0, 0, 0, 0⟩, "person", 1, 0⟩
    (detAt 10) 2 0 rfl (by norm_num) (by decide)).2.2.1

/-! ### Claim C8 (id allocation invariant) -/

/-- Invariant of the detection-association loop: the `updated` dict keeps
unique keys, the `next_id` counter only grows, and every key is either an
existing track id or a freshly allocated id in `[base, nid)`. -/
theorem assocGo_inv (thr2 : ℚ) (tracks : List (Nat × Track)) (base : Nat)
    (dets : List TrackedObject) :
    ∀ acc : AssocAcc,
      (keysOf acc.updated).Nodup → base ≤ acc.nid →
      (∀ a ∈ keysOf acc.updated,
        a ∈ keysOf tracks ∨ (base ≤ a ∧ a < acc.nid)) →
      ((keysOf (assocGo thr2 tracks acc dets).updated).Nodup ∧
       acc.nid ≤ (assocGo thr2 tracks acc dets).nid ∧
       base ≤ (assocGo thr2 tracks acc dets).nid ∧
       (∀ a ∈ keysOf (assocGo thr2 tracks acc dets).updated,
         a ∈ keysOf tracks ∨
           (base ≤ a ∧ a < (assocGo thr2 tracks acc dets).nid))) := by
  induction dets with
  | nil => intro acc h1 h2 h3; exact ⟨h1, le_refl _, h2, h3⟩
  | cons det rest ih =>
      intro acc h1 h2 h3
      cases hb : (bestMatch (det.box.cx, det.box.cy) thr2 tracks).1 with
      | none =>
          have hstep : assocGo thr2 tracks acc (det :: rest) =
              assocGo thr2 tracks
                ⟨setId acc.updated acc.nid
                  (newTrack (det.box.cx, det.box.cy) det),
                 acc.nid :: acc.used, acc.nid + 1⟩ rest := by
            simp only [assocGo, hb]
          rw [hstep]
          have hih := ih ⟨setId acc.updated acc.nid
              (newTrack (det.box.cx, det.box.cy) det),
            acc.nid :: acc.used, acc.nid + 1⟩
            (nodup_keysOf_setId acc.updated acc.nid _ h1)
            (by dsimp only; omega)
            (by
              intro a ha
              dsimp only at ha ⊢
              rcases (mem_keysOf_setId acc.updated acc.nid _ a).mp ha with
                hin | heq
              · rcases h3 a hin with hl | hr
                · exact Or.inl hl
                · exact Or.inr ⟨hr.1, by omega⟩
              · exact Or.inr ⟨by omega, by omega⟩)
          refine ⟨hih.1, ?_, hih.2.2.1, hih.2.2.2⟩
          have hstep2 := hih.2.1
          dsimp only at hstep2
          omega
      | some tid =>
          have htid : tid ∈ keysOf tracks := by
            rcases bestMatchGo_some_mem (det.box.cx, det.box.cy) tracks
              (none, thr2) tid hb with hc | hm
            · exact absurd hc (by simp)
            · exact hm
          have hstep : assocGo thr2 tracks acc (det :: rest) =
              assocGo thr2 tracks
                ⟨setId acc.updated tid
                  (newTrack (det.box.cx, det.box.cy) det),
                 tid :: acc.used, acc.nid⟩ rest := by
            simp only [assocGo, hb]
          rw [hstep]
          exact ih ⟨setId acc.updated tid
              (newTrack (det.box.cx, det.box.cy) det),
            tid :: acc.used, acc.nid⟩
            (nodup_keysOf_setId acc.updated tid _ h1) h2
            (by
              intro a ha
              rcases (mem_keysOf_setId acc.updated tid _ a).mp ha with
                hin | heq
              · exact h3 a hin
              · exact Or.inl (heq ▸ htid))

/-- The missing-counter loop keeps keys unique and only adds keys that
belong to the previous tracks dict. -/
theorem missingGo_inv (maxMissing : Nat) (used : List Nat)
    (l : List (Nat × Track)) :
    ∀ upd : List (Nat × Track), (keysOf upd).Nodup →
      ((keysOf (missingGo maxMissing used upd l)).Nodup ∧
       ∀ a ∈ keysOf (missingGo maxMissing used upd l),
         a ∈ keysOf upd ∨ a ∈ keysOf l) := by
  induction l with
  | nil => intro upd h; exact ⟨h, fun a ha => Or.inl ha⟩
  | cons q rest ih =>
      intro upd h
      obtain ⟨tid, tr⟩ := q
      have hcons : ∀ a, a ∈ keysOf rest →
          a ∈ keysOf ((tid, tr) :: rest) := by
        intro a ha
        simp only [keysOf, List.map_cons, List.mem_cons]
        exact Or.inr ha
      by_cases hu : tid ∈ used
      · rw [missingGo, if_pos hu]
        obtain ⟨ha, hb⟩ := ih upd h
        exact ⟨ha, fun a haa =>
          (hb a haa).imp id (fun hh => hcons a hh)⟩
      · rw [missingGo, if_neg hu]
        by_cases hm : tr.missing + 1 ≤ maxMissing
        · rw [if_pos hm]
          obtain ⟨ha, hb⟩ := ih
            (setId upd tid { tr with missing := tr.missing + 1 })
            (nodup_keysOf_setId upd tid _ h)
          refine ⟨ha, fun a haa => ?_⟩
          rcases hb a haa with hup | hrest
          · rcases (mem_keysOf_setId upd tid _ a).mp hup with hin | heq
            · exact Or.inl hin
            · refine Or.inr ?_
              simp only [keysOf, List.map_cons, List.mem_cons]
              exact Or.inl heq
          · exact Or.inr (hcons a hrest)
        · rw [if_neg hm]
          obtain ⟨ha, hb⟩ := ih upd h
          exact ⟨ha, fun a haa =>
            (hb a haa).imp id (fun hh => hcons a hh)⟩

/-- The ids of the output list are exactly the keys of the new tracks
dict, in order. -/
theorem update_output_ids (st : Tracker) (dets : List TrackedObject)
    (clock : ℚ) :
    (st.update dets clock).2.map TrackedObject.id =
      keysOf (st.update dets clock).1.tracks := by
  simp only [Tracker.update, List.map_map]
  rfl

/-- C8: `Tracker.update` preserves the well-formedness invariant (unique
track ids, all below the `next_id` counter); the counter never decreases;
every id present after the call but not before is at least the old
`next_id` (fresh ids are allocated only from the counter, so an id is
never reused after its track is destroyed); and the output contains at
most one `TrackedObject` per id. -/
theorem c8_id_invariant (st : Tracker) (dets : List TrackedObject)
    (clock : ℚ) (hwf : st.WF) :
    (st.update dets clock).1.WF ∧
    st.next_id ≤ (st.update dets clock).1.next_id ∧
    (∀ a ∈ keysOf (st.update dets clock).1.tracks,
      a ∉ keysOf st.tracks → st.next_id ≤ a) ∧
    ((st.update dets clock).2.map TrackedObject.id).Nodup := by
  obtain ⟨hnd, hbound⟩ := hwf
  obtain ⟨ha1, ha2, ha3, ha4⟩ := assocGo_inv st.distThresholdSq st.tracks
    st.next_id dets ⟨[], [], st.next_id⟩ (by simp [keysOf])
    (le_refl _) (by simp [keysOf])
  obtain ⟨hm1, hm2⟩ := missingGo_inv st.max_missing_frames
    (assocGo st.distThresholdSq st.tracks ⟨[], [], st.next_id⟩ dets).used
    st.tracks
    (assocGo st.distThresholdSq st.tracks ⟨[], [], st.next_id⟩ dets).updated
    ha1
  have htracks2 : (st.update dets clock).1.tracks =
      missingGo st.max_missing_frames
        (assocGo st.distThresholdSq st.tracks ⟨[], [], st.next_id⟩
          dets).used
        (assocGo st.distThresholdSq st.tracks ⟨[], [], st.next_id⟩
          dets).updated st.tracks := rfl
  have hnid2 : (st.update dets clock).1.next_id =
      (assocGo st.distThresholdSq st.tracks ⟨[], [], st.next_id⟩
        dets).nid := rfl
  have hkey : ∀ a ∈ keysOf (st.update dets clock).1.tracks,
      a < (st.update dets clock).1.next_id := by
    intro a ha
    rw [htracks2] at ha
    rw [hnid2]
    rcases hm2 a ha with hup | htr
    · rcases ha4 a hup with hin | hr
      · exact lt_of_lt_of_le (hbound a hin) ha3
      · exact hr.2
    · exact lt_of_lt_of_le (hbound a htr) ha3
  refine ⟨⟨?_, hkey⟩, ?_, ?_, ?_⟩
  · rw [htracks2]
    exact hm1
  · rw [hnid2]
    exact ha3
  · intro a ha hnot
    rw [htracks2] at ha
    rcases hm2 a ha with hup | htr
    · rcases ha4 a hup with hin | hr
      · exact absurd hin hnot
      · exact hr.1
    · exact absurd htr hnot
  · rw [update_output_ids, htracks2]
    exact hm1

/-- C8 witness: a fresh well-formed tracker given two detections. -/
theorem c8_id_invariant_witness :
    ((Tracker.mk 5 2500 0 []).update [detAt 0, detAt 100] 1).1.WF ∧
    (((Tracker.mk 5 2500 0 []).update
      [detAt 0, detAt 100] 1).2.map TrackedObject.id).Nodup :=
  ⟨(c8_id_invariant (Tracker.mk 5 2500 0 []) [detAt 0, detAt 100] 1
     (by constructor <;> simp [keysOf])).1,
   (c8_id_invariant (Tracker.mk 5 2500 0 []) [detAt 0, detAt 100] 1
     (by constructor <;> simp [keysOf])).2.2.2⟩

end Guardian
